import Mathlib

/-
Verification of the medusa-retention-refresher reconciliation core.

The definitions below are a shallow embedding of `main.go`:

* timestamps (`time.Time`) are modelled as `Int` (instants on a linear
  timeline; `time.Time.Before` is `<`);
* JSON documents are modelled at the value level by the inductive `Json`,
  and `encoding/json` unmarshalling into the Go types `[]ManifestEntry`,
  `ManifestEntry`, `ManifestObject` is modelled field by field;
* the S3 client is modelled by explicit data: a listing is a list of pages,
  a retention query result is a `RetentionQuery`, a `PutObjectRetention`
  call is a `PutRequest` record;
* Go's multiple return `(bool, error)` is modelled as `Bool × Option String`,
  and `(T, error)` as `Except String T`.
-/

namespace Medusa

/-- Characters of the needle occur contiguously in the haystack; model of
Go `strings.Contains` on the character level. -/
def listContainsSub : List Char → List Char → Bool
  | [], sub => sub.isEmpty
  | c :: cs, sub => sub.isPrefixOf (c :: cs) || listContainsSub cs sub

/-- Model of Go `strings.Contains`. -/
def strContainsSub (s sub : String) : Bool :=
  listContainsSub s.data sub.data

/-- Model of Go `strings.HasPrefix`. -/
def strStartsWith (s pre : String) : Bool :=
  pre.data.isPrefixOf s.data

/-- Model of Go `strings.HasSuffix`. -/
def strEndsWithSub (s suf : String) : Bool :=
  suf.data.isSuffixOf s.data

/-- Split a character list at every occurrence of `sep`; model of Go
`strings.Split(s, sep)` for a one-character separator (the only use in the
source is `strings.Split(manifestKey, "/")`). `strings.Split("", "/")`
returns `[""]`, matching the base case. -/
def splitCharList (sep : Char) : List Char → List (List Char)
  | [] => [[]]
  | c :: cs =>
    let r := splitCharList sep cs
    if c = sep then [] :: r
    else
      match r with
      | [] => [[c]]
      | h :: t => (c :: h) :: t

/-- Model of Go `strings.Split(s, "/")`. -/
def splitSlash (s : String) : List String :=
  (splitCharList '/' s.data).map (fun l => String.mk l)

/-- JSON values: the decoded wire form of a manifest document. -/
inductive Json where
  | null
  | bool (b : Bool)
  | num (n : Int)
  | str (s : String)
  | arr (elems : List Json)
  | obj (fields : List (String × Json))

/-- Go struct `ManifestObject` (`path`, `MD5`, `size`). -/
structure ManifestObject where
  path : String
  md5 : String
  size : Int
deriving DecidableEq

/-- Go struct `ManifestEntry` (`keyspace`, `columnfamily`, `objects`). -/
structure ManifestEntry where
  keyspace : String
  columnFamily : String
  objects : List ManifestObject
deriving DecidableEq

/-- Go struct `Manifest`: the flat list of all object paths. -/
structure Manifest where
  objects : List ManifestObject
deriving DecidableEq

/-- Zero value of the Go struct `ManifestObject`. -/
def emptyManifestObject : ManifestObject := ⟨"", "", 0⟩

/-- Zero value of the Go struct `ManifestEntry`. -/
def emptyManifestEntry : ManifestEntry := ⟨"", "", []⟩

/-- Model of `encoding/json` assigning one JSON object field into a
`ManifestObject`: known keys must carry the right shape (`null` is a no-op),
unknown keys are ignored. -/
def setObjField (acc : ManifestObject) (k : String) (v : Json) :
    Except String ManifestObject :=
  if k = "path" then
    match v with
    | .str s => .ok { acc with path := s }
    | .null => .ok acc
    | _ => .error "cannot unmarshal into string field path"
  else if k = "MD5" then
    match v with
    | .str s => .ok { acc with md5 := s }
    | .null => .ok acc
    | _ => .error "cannot unmarshal into string field MD5"
  else if k = "size" then
    match v with
    | .num n => .ok { acc with size := n }
    | .null => .ok acc
    | _ => .error "cannot unmarshal into int64 field size"
  else .ok acc

/-- Model of `encoding/json` unmarshalling a JSON value into a
`ManifestObject`. -/
def decodeManifestObject : Json → Except String ManifestObject
  | .null => .ok emptyManifestObject
  | .obj fields => fields.foldlM (fun acc kv => setObjField acc kv.1 kv.2) emptyManifestObject
  | _ => .error "cannot unmarshal into ManifestObject"

/-- Model of `encoding/json` unmarshalling a JSON value into
`[]ManifestObject` (JSON `null` yields the nil slice). -/
def decodeObjectList : Json → Except String (List ManifestObject)
  | .null => .ok []
  | .arr es => es.mapM decodeManifestObject
  | _ => .error "cannot unmarshal into []ManifestObject"

/-- Model of `encoding/json` assigning one JSON object field into a
`ManifestEntry`. -/
def setEntryField (acc : ManifestEntry) (k : String) (v : Json) :
    Except String ManifestEntry :=
  if k = "keyspace" then
    match v with
    | .str s => .ok { acc with keyspace := s }
    | .null => .ok acc
    | _ => .error "cannot unmarshal into string field keyspace"
  else if k = "columnfamily" then
    match v with
    | .str s => .ok { acc with columnFamily := s }
    | .null => .ok acc
    | _ => .error "cannot unmarshal into string field columnfamily"
  else if k = "objects" then
    match decodeObjectList v with
    | .ok os => .ok { acc with objects := os }
    | .error e => .error e
  else .ok acc

/-- Model of `encoding/json` unmarshalling a JSON value into a
`ManifestEntry`. -/
def decodeManifestEntry : Json → Except String ManifestEntry
  | .null => .ok emptyManifestEntry
  | .obj fields => fields.foldlM (fun acc kv => setEntryField acc kv.1 kv.2) emptyManifestEntry
  | _ => .error "cannot unmarshal into ManifestEntry"

/-- Model of `encoding/json` unmarshalling a JSON value into
`[]ManifestEntry`: the top-level document must be a JSON array (or `null`,
which Go leaves as the nil slice); a mapping, string, number or boolean is
a decode error. -/
def decodeEntryList : Json → Except String (List ManifestEntry)
  | .null => .ok []
  | .arr es => es.mapM decodeManifestEntry
  | _ => .error "cannot unmarshal into []ManifestEntry"

/-- Function `parseManifest` from `main.go`: decode the document as `[]ManifestEntry`
and flatten all entries' object lists, in entry order then in-entry order. -/
def parseManifest (doc : Json) : Except String Manifest :=
  match decodeEntryList doc with
  | .error e => .error ("failed to parse manifest: " ++ e)
  | .ok entries => .ok ⟨entries.flatMap (fun e => e.objects)⟩

/-- Function `extractHostnamePath` from `main.go`: split the manifest key on `/`,
fail when fewer than 4 segments result, otherwise return
`parts[0] ++ "/" ++ parts[1] ++ "/"`. -/
def extractHostnamePath (manifestKey : String) : Except String String :=
  let parts := splitSlash manifestKey
  if parts.length < 4 then
    .error ("invalid manifest path: " ++ manifestKey)
  else
    .ok (parts.getD 0 "" ++ "/" ++ parts.getD 1 "" ++ "/")

/-- Function `needsRetentionUpdate` from `main.go`: update is needed when no current
retention is set, or the current retention is strictly before the required
instant. -/
def needsRetentionUpdate (currentRetention : Option Int) (requiredUntil : Int) : Bool :=
  match currentRetention with
  | none => true
  | some c => decide (c < requiredUntil)

/-- The object-key resolution step of the driver loop (`main.go`,
lines 127-135): keep the referenced path when it already starts with the
hostname path, otherwise put the hostname path in front. -/
def resolveObjectKey (hostnamePath objPath : String) : String :=
  if strStartsWith objPath hostnamePath then objPath else hostnamePath ++ objPath

/-- Outcome of a `GetObjectRetention` call: either the (possibly absent)
retain-until date, or a failure message. -/
inductive RetentionQuery where
  | success (retention : Option Int)
  | failure (msg : String)
deriving DecidableEq

/-- The error substrings `checkRetention` recognises as "no lock
configuration / object not found". -/
def isLockMissingErr (msg : String) : Bool :=
  strContainsSub msg "NoSuchObjectLockConfiguration"
  || strContainsSub msg "ObjectLockConfigurationNotFoundError"
  || strContainsSub msg "NoSuchKey"

/-- Function `checkRetention` from `main.go`, over the outcome of the retention
query: the distinguished failures mean "needs update" `(true, none)`, any
other failure is propagated `(false, some msg)`, and a successful query is
passed to `needsRetentionUpdate`. -/
def checkRetention (q : RetentionQuery) (requiredUntil : Int) : Bool × Option String :=
  match q with
  | .failure msg => if isLockMissingErr msg then (true, none) else (false, some msg)
  | .success r => (needsRetentionUpdate r requiredUntil, none)

/-- S3 object-lock retention modes. -/
inductive ObjectLockRetentionMode where
  | governance
  | compliance
deriving DecidableEq

/-- The body of a `PutObjectRetention` request. -/
structure PutRequest where
  key : String
  mode : ObjectLockRetentionMode
  retainUntilDate : Int
deriving DecidableEq

/-- Function `updateRetention` from `main.go`, as the request it issues: mode is the
constant `GOVERNANCE`, retain-until date is the passed timestamp. -/
def updateRetentionRequest (key : String) (retainUntil : Int) : PutRequest :=
  { key := key, mode := .governance, retainUntilDate := retainUntil }

/-- The manifest naming convention suffix. -/
def manifestSuffix : String := "/meta/manifest.json"

/-- Insertion into the Go map `backupPaths` (set semantics, modelled as a
duplicate-free list in first-seen order). -/
def insertKey (acc : List String) (k : String) : List String :=
  if k ∈ acc then acc else acc ++ [k]

/-- One page of `findManifests`' inner loop: keep every key that ends in
`/meta/manifest.json`. -/
def collectPage (acc : List String) (contents : List String) : List String :=
  contents.foldl (fun a k => if strEndsWithSub k manifestSuffix then insertKey a k else a) acc

/-- One `ListObjectsV2` response: a page of keys plus the truncation flag,
or a failed call. -/
inductive ListPage where
  | page (contents : List String) (truncated : Bool)
  | failure (msg : String)

/-- The pagination loop of `findManifests`: consume responses until one
reports `IsTruncated = false`; any failed page aborts the whole call. -/
def collectManifests : List ListPage → List String → Except String (List String)
  | [], acc => .ok acc
  | .failure m :: _, _ => .error ("failed to list objects: " ++ m)
  | .page cs tr :: rest, acc =>
    if tr then collectManifests rest (collectPage acc cs) else .ok (collectPage acc cs)

/-- Function `findManifests` from `main.go`, over the sequence of listing responses
the store produces for the cluster prefix. -/
def findManifests (pages : List ListPage) : Except String (List String) :=
  collectManifests pages []

/-- All keys the pagination loop actually sees: the pages consumed up to
and including the first non-truncated one. -/
def listedKeys : List ListPage → List String
  | [] => []
  | .failure _ :: _ => []
  | .page cs tr :: rest => cs ++ (if tr then listedKeys rest else [])

/-- The store as the reconciliation driver observes it in one run: the
listing responses, the (downloaded and JSON-decoded) document behind each
key, and the outcome of the retention query and the retention update for
each key. -/
structure Store where
  pages : List ListPage
  getObject : String → Except String Json
  getRetention : String → RetentionQuery
  putRetentionResult : String → Except String Unit

/-- Per-unit outcome the driver logs: one event per manifest that fails,
and one event per visited object. -/
inductive Event where
  | manifestError (key : String) (msg : String)
  | pathError (key : String)
  | objectError (key : String) (msg : String)
  | wouldUpdate (key : String)
  | updated (key : String)
  | updateError (key : String) (msg : String)
  | alreadyOk (key : String)
deriving DecidableEq

/-- The per-object body of the driver loop (`main.go`, lines 137-154):
check retention; a query error is logged and the object skipped; otherwise
update when needed (or only log in dry-run mode), logging update failures. -/
def processObjectKey (st : Store) (dryRun : Bool) (required : Int) (key : String) : Event :=
  match checkRetention (st.getRetention key) required with
  | (_, some e) => .objectError key e
  | (true, none) =>
    if dryRun then .wouldUpdate key
    else
      match st.putRetentionResult key with
      | .ok _ => .updated key
      | .error e => .updateError key e
  | (false, none) => .alreadyOk key

/-- Function `downloadManifest` from `main.go`: fetch the document and parse it. -/
def downloadManifest (st : Store) (key : String) : Except String Manifest :=
  match st.getObject key with
  | .error e => .error ("failed to get object: " ++ e)
  | .ok doc => parseManifest doc

/-- The per-manifest body of the driver loop (`main.go`, lines 110-156):
a download/parse or hostname-path failure yields one error event for the
manifest; otherwise each referenced object is resolved and visited. -/
def processManifestKey (st : Store) (dryRun : Bool) (required : Int) (mkey : String) :
    List Event :=
  match downloadManifest st mkey with
  | .error e => [.manifestError mkey e]
  | .ok mf =>
    match extractHostnamePath mkey with
    | .error _ => [.pathError mkey]
    | .ok hp => mf.objects.map (fun o => processObjectKey st dryRun required (resolveObjectKey hp o.path))

/-- The reconciliation driver of `main` over the store model: discovery
failure is fatal; otherwise every discovered manifest is processed in
sequence and the per-unit events are concatenated. -/
def runReconciliation (st : Store) (dryRun : Bool) (required : Int) :
    Except String (List Event) :=
  (findManifests st.pages).map (fun ms => ms.flatMap (processManifestKey st dryRun required))

/-- The retention state of one stored object: absent from the store, or
present with a (possibly absent) retain-until date. -/
inductive ObjState where
  | missing
  | present (retention : Option Int)
deriving DecidableEq

/-- A store state: the retention state of every key. -/
abbrev StoreState := String → ObjState

/-- How `GetObjectRetention` reads a store state: a missing object fails
with `NoSuchKey`; a present object reports its retain-until date. -/
def queryRetention (σ : StoreState) (key : String) : RetentionQuery :=
  match σ key with
  | .missing => .failure "NoSuchKey"
  | .present r => .success r

/-- How `PutObjectRetention` changes a store state: on a missing object the
call fails and the state is unchanged; on a present object the retain-until
date becomes `v`. -/
def applyPut (σ : StoreState) (key : String) (v : Int) : StoreState :=
  match σ key with
  | .missing => σ
  | .present _ => fun k => if k = key then .present (some v) else σ k

/-- One object of the driver loop, as a state transformer: when
`checkRetention` answers "needs update" (and no error), the update request
of `updateRetention` is issued and applied; otherwise nothing happens. -/
def processKeyState (required : Int) (σ : StoreState) (key : String) :
    StoreState × List PutRequest :=
  match checkRetention (queryRetention σ key) required with
  | (true, none) => (applyPut σ key required, [updateRetentionRequest key required])
  | _ => (σ, [])

/-- One full reconciliation pass over the resolved object keys, in order:
the final store state and the sequence of issued update requests. -/
def runPass (required : Int) : StoreState → List String → StoreState × List PutRequest
  | σ, [] => (σ, [])
  | σ, k :: ks =>
    let step := processKeyState required σ k
    let rest := runPass required step.1 ks
    (rest.1, step.2 ++ rest.2)

/-- An object whose store state already satisfies the target policy:
present, with a retain-until date at or after the required instant. -/
def Retained (required : Int) (σ : StoreState) (k : String) : Prop :=
  ∃ c, σ k = .present (some c) ∧ required ≤ c

/-- Wire shape (a): the top-level mapping document from the repository's
own parser test (`TestParseManifest`, case "valid manifest with objects"). -/
def mappingShapeDoc : Json :=
  Json.obj [("objects", Json.arr
    [Json.obj [("path", Json.str "data/keyspace/table/file1.db")],
     Json.obj [("path", Json.str "data/keyspace/table/file2.db")]])]

/-- Wire shape (b): a sequence of per-table records, each with a nested
sequence of path records. -/
def entryShapeDoc : Json :=
  Json.arr
    [Json.obj [("keyspace", Json.str "ks"), ("columnfamily", Json.str "t1"),
      ("objects", Json.arr [Json.obj [("path", Json.str "data/ks/t1/f1.db")]])],
     Json.obj [("keyspace", Json.str "ks"), ("columnfamily", Json.str "t2"),
      ("objects", Json.arr [Json.obj [("path", Json.str "data/ks/t2/f2.db")],
        Json.obj [("path", Json.str "data/ks/t2/f3.db")]])]]

/-- A shape (b) document for the driver: one table record with two path
records. -/
def sampleDoc : Json :=
  Json.arr [Json.obj [("objects", Json.arr
    [Json.obj [("path", Json.str "data/t/f1.db")],
     Json.obj [("path", Json.str "data/t/f2.db")]])]]

/-- A concrete store exercising the driver: discovery needs two pages with
an overlap, one manifest fails to download, the other references two
objects of which one fails its retention query. -/
def sampleStore : Store where
  pages := [ListPage.page ["c1/h1/b1/meta/manifest.json", "c1/h1/data/t/f0.db"] true,
            ListPage.page ["c1/h1/b1/meta/manifest.json", "c1/h2/b1/meta/manifest.json"] false]
  getObject := fun k => if k = "c1/h2/b1/meta/manifest.json" then .ok sampleDoc else .error "boom"
  getRetention := fun k =>
    if k = "c1/h2/data/t/f1.db" then .success (some 5) else .failure "AccessDenied"
  putRetentionResult := fun _ => .ok ()

section Theorems

/-- C1: the retention policy evaluator is a total function over its two
arguments (it is a Lean `def` with no partiality); an absent current
expiry always needs an update, a present expiry needs one exactly when it
is strictly before the required instant, none when at or after it, and
equality counts as sufficient. -/
theorem needsRetentionUpdate_policy (current required : Int) :
    needsRetentionUpdate none required = true
    ∧ (needsRetentionUpdate (some current) required = true ↔ current < required)
    ∧ (needsRetentionUpdate (some current) required = false ↔ required ≤ current)
    ∧ needsRetentionUpdate (some required) required = false := by
  refine ⟨rfl, ?_, ?_, ?_⟩
  · simp [needsRetentionUpdate]
  · simp [needsRetentionUpdate]
  · simp [needsRetentionUpdate]

/-- C3 (code bug): the parser accepts wire shape (b) — a sequence of
per-table records, flattened by concatenation in record order then
in-record order — but rejects wire shape (a), the top-level mapping with
an `objects` key that the repository's own `TestParseManifest` expects to
succeed: `decodeEntryList` insists on a top-level JSON array. -/
theorem parseManifest_wire_shapes :
    parseManifest entryShapeDoc =
      .ok ⟨[⟨"data/ks/t1/f1.db", "", 0⟩, ⟨"data/ks/t2/f2.db", "", 0⟩,
            ⟨"data/ks/t2/f3.db", "", 0⟩]⟩
    ∧ (parseManifest mappingShapeDoc).isOk = false :=
  ⟨rfl, rfl⟩

/-- C4: the object-key resolution returns the referenced path unchanged
exactly when it textually begins with the hostname path (characterised by
a character-level existential), and otherwise the concatenation; the
scenario of the spec resolves as stated. -/
theorem resolveObjectKey_spec (hp p : String) :
    (strStartsWith p hp = true ↔ ∃ t : List Char, p.data = hp.data ++ t)
    ∧ resolveObjectKey hp p = (if strStartsWith p hp then p else hp ++ p)
    ∧ extractHostnamePath "cluster1/host1/backup-001/meta/manifest.json" = .ok "cluster1/host1/"
    ∧ resolveObjectKey "cluster1/host1/" "data/ks/table/file1.db"
        = "cluster1/host1/data/ks/table/file1.db"
    ∧ resolveObjectKey "c1/h1/" "c1/h1/data/ks/table/file1.db"
        = "c1/h1/data/ks/table/file1.db" := by
  refine ⟨?_, rfl, rfl, rfl, rfl⟩
  rw [strStartsWith, List.isPrefixOf_iff_prefix]
  exact ⟨fun ⟨t, ht⟩ => ⟨t, ht.symm⟩, fun ⟨t, ht⟩ => ⟨t, ht.symm⟩⟩

/-- C5: splitting the manifest key on `/` fails exactly when fewer than 4
segments result (the empty string splits into one segment and fails, never
silently truncated), and on success returns the first two segments joined
with trailing separators. -/
theorem extractHostnamePath_spec (key : String) :
    ((extractHostnamePath key).isOk ↔ 4 ≤ (splitSlash key).length)
    ∧ (extractHostnamePath key =
        if (splitSlash key).length < 4 then .error ("invalid manifest path: " ++ key)
        else .ok ((splitSlash key).getD 0 "" ++ "/" ++ (splitSlash key).getD 1 "" ++ "/"))
    ∧ (extractHostnamePath "").isOk = false
    ∧ splitSlash "" = [""]
    ∧ (extractHostnamePath "a/b/c").isOk = false
    ∧ extractHostnamePath "cluster/host/backup/meta/manifest.json" = .ok "cluster/host/" := by
  refine ⟨?_, rfl, rfl, rfl, rfl, rfl⟩
  rw [extractHostnamePath]
  by_cases h : (splitSlash key).length < 4
  · simp [h, Except.isOk, Except.toBool]
  · simp [h, Except.isOk, Except.toBool]
    omega

/-- C6: a failed retention query whose message carries one of the
distinguished "no lock configuration" / "object not found" markers is
reinterpreted as a definite "needs update" with no error, identically to a
successful query reporting no expiry; any other failure is propagated as
the error (with `false`), so the object is skipped. -/
theorem checkRetention_error_classification (msg : String) (required : Int) :
    checkRetention (.failure msg) required
      = (if isLockMissingErr msg then (true, none) else (false, some msg))
    ∧ checkRetention (.failure "NoSuchObjectLockConfiguration") required = (true, none)
    ∧ checkRetention (.failure "ObjectLockConfigurationNotFoundError") required = (true, none)
    ∧ checkRetention (.failure "api error NoSuchKey: the key does not exist") required
        = (true, none)
    ∧ checkRetention (.failure "AccessDenied") required = (false, some "AccessDenied")
    ∧ checkRetention (.failure "NoSuchObjectLockConfiguration") required
        = checkRetention (.success none) required :=
  ⟨rfl, rfl, rfl, rfl, rfl, rfl⟩

theorem mem_insertKey {acc : List String} {k k2 : String} :
    k ∈ insertKey acc k2 ↔ k ∈ acc ∨ k = k2 := by
  unfold insertKey
  by_cases h : k2 ∈ acc
  · simp only [if_pos h]
    constructor
    · exact Or.inl
    · rintro (hk | rfl)
      · exact hk
      · exact h
  · simp [if_neg h]

theorem nodup_insertKey {acc : List String} (h : acc.Nodup) (k2 : String) :
    (insertKey acc k2).Nodup := by
  unfold insertKey
  by_cases hm : k2 ∈ acc
  · simpa [if_pos hm] using h
  · rw [if_neg hm, List.nodup_append]
    refine ⟨h, List.nodup_singleton _, ?_⟩
    intro a ha hb
    rw [List.mem_singleton] at hb
    subst hb
    exact hm ha

theorem collectPage_cons (acc : List String) (c : String) (cs : List String) :
    collectPage acc (c :: cs)
      = collectPage (if strEndsWithSub c manifestSuffix then insertKey acc c else acc) cs := rfl

theorem mem_collectPage {cs : List String} : ∀ {acc k},
    k ∈ collectPage acc cs
      ↔ k ∈ acc ∨ (k ∈ cs ∧ strEndsWithSub k manifestSuffix = true) := by
  induction cs with
  | nil => intro acc k; simp [collectPage]
  | cons c cs ih =>
    intro acc k
    rw [collectPage_cons, ih]
    by_cases hc : strEndsWithSub c manifestSuffix = true
    · rw [if_pos hc]
      constructor
      · rintro (hk | hk)
        · rcases mem_insertKey.mp hk with hk2 | rfl
          · exact Or.inl hk2
          · exact Or.inr ⟨List.mem_cons_self _ _, hc⟩
        · exact Or.inr ⟨List.mem_cons_of_mem _ hk.1, hk.2⟩
      · rintro (hk | ⟨hk, hs⟩)
        · exact Or.inl (mem_insertKey.mpr (Or.inl hk))
        · rcases List.mem_cons.mp hk with rfl | hk2
          · exact Or.inl (mem_insertKey.mpr (Or.inr rfl))
          · exact Or.inr ⟨hk2, hs⟩
    · rw [if_neg hc]
      constructor
      · rintro (hk | hk)
        · exact Or.inl hk
        · exact Or.inr ⟨List.mem_cons_of_mem _ hk.1, hk.2⟩
      · rintro (hk | ⟨hk, hs⟩)
        · exact Or.inl hk
        · rcases List.mem_cons.mp hk with rfl | hk2
          · exact absurd hs hc
          · exact Or.inr ⟨hk2, hs⟩

theorem nodup_collectPage {cs : List String} : ∀ {acc : List String},
    acc.Nodup → (collectPage acc cs).Nodup := by
  induction cs with
  | nil => intro acc h; simpa [collectPage] using h
  | cons c cs ih =>
    intro acc h
    rw [collectPage_cons]
    by_cases hc : strEndsWithSub c manifestSuffix = true
    · rw [if_pos hc]; exact ih (nodup_insertKey h c)
    · rw [if_neg hc]; exact ih h

theorem collectManifests_spec : ∀ (pages : List ListPage) (acc ms : List String),
    collectManifests pages acc = .ok ms → acc.Nodup →
    ms.Nodup ∧ ∀ k, (k ∈ ms ↔ k ∈ acc
      ∨ (k ∈ listedKeys pages ∧ strEndsWithSub k manifestSuffix = true)) := by
  intro pages
  induction pages with
  | nil =>
    intro acc ms h hn
    rw [collectManifests] at h
    cases h
    exact ⟨hn, fun k => by simp [listedKeys]⟩
  | cons p rest ih =>
    cases p with
    | failure m => intro acc ms h hn; rw [collectManifests] at h; cases h
    | page cs tr =>
      intro acc ms h hn
      rw [collectManifests] at h
      cases tr with
      | true =>
        rw [if_pos rfl] at h
        obtain ⟨h1, h2⟩ := ih _ _ h (nodup_collectPage hn)
        refine ⟨h1, fun k => ?_⟩
        rw [h2 k, mem_collectPage]
        simp only [listedKeys, if_pos rfl, List.mem_append]
        tauto
      | false =>
        rw [if_neg Bool.false_ne_true] at h
        cases h
        refine ⟨nodup_collectPage hn, fun k => ?_⟩
        rw [mem_collectPage]
        simp only [listedKeys, List.mem_append]
        tauto

/-- C7: when discovery succeeds, it returns exactly the keys seen on the
consumed listing pages (followed until the first non-truncated response)
whose suffix is `/meta/manifest.json`, with set semantics: no key twice
even when pages overlap, non-matching keys excluded. -/
theorem findManifests_set_of_listed (pages : List ListPage) (ms : List String)
    (h : findManifests pages = .ok ms) :
    ms.Nodup ∧ ∀ k, (k ∈ ms
      ↔ k ∈ listedKeys pages ∧ strEndsWithSub k manifestSuffix = true) := by
  obtain ⟨h1, h2⟩ := collectManifests_spec pages [] ms h List.nodup_nil
  exact ⟨h1, fun k => by simpa using h2 k⟩

/-- Witness for C7: a paginated listing with an overlapping manifest key
on both pages and a data-file key; the theorem applies with the discovery
result computed by `rfl`. -/
theorem findManifests_set_of_listed_witness :
    (["links/host1/backup1/meta/manifest.json",
      "links/host2/backup1/meta/manifest.json"] : List String).Nodup
    ∧ ∀ k, (k ∈ (["links/host1/backup1/meta/manifest.json",
        "links/host2/backup1/meta/manifest.json"] : List String)
      ↔ k ∈ listedKeys
          [ListPage.page ["links/host1/backup1/meta/manifest.json",
            "links/host1/data/file.db"] true,
           ListPage.page ["links/host1/backup1/meta/manifest.json",
            "links/host2/backup1/meta/manifest.json"] false]
        ∧ strEndsWithSub k manifestSuffix = true) :=
  findManifests_set_of_listed _ _ rfl

theorem runPass_cons (required : Int) (σ : StoreState) (k : String) (ks : List String) :
    runPass required σ (k :: ks)
      = ((runPass required (processKeyState required σ k).1 ks).1,
         (processKeyState required σ k).2
           ++ (runPass required (processKeyState required σ k).1 ks).2) := rfl

theorem processKeyState_cases (required : Int) (σ : StoreState) (k : String) :
    processKeyState required σ k
        = (applyPut σ k required, [updateRetentionRequest k required])
    ∨ processKeyState required σ k = (σ, []) := by
  unfold processKeyState
  rcases h : checkRetention (queryRetention σ k) required with ⟨b, e⟩
  cases b <;> cases e <;> simp

theorem processKeyState_present {required c : Int} {σ : StoreState} {k : String}
    (hk : σ k = .present (some c)) :
    processKeyState required σ k
      = if c < required then (applyPut σ k required, [updateRetentionRequest k required])
        else (σ, []) := by
  have hq : queryRetention σ k = .success (some c) := by
    rw [queryRetention, hk]
  unfold processKeyState
  rw [hq]
  by_cases h : c < required <;>
    simp [checkRetention, needsRetentionUpdate, h]

theorem processKeyState_noop {required c : Int} {σ : StoreState} {k : String}
    (hk : σ k = .present (some c)) (hge : required ≤ c) :
    processKeyState required σ k = (σ, []) := by
  rw [processKeyState_present hk, if_neg (by omega)]

theorem applyPut_other {σ : StoreState} {k v} {k2 : String} (h : k2 ≠ k) :
    applyPut σ k v k2 = σ k2 := by
  unfold applyPut
  cases hk : σ k
  · rfl
  · simp [h]

theorem applyPut_self_present {σ : StoreState} {k : String} {v : Int} {r : Option Int}
    (hk : σ k = .present r) :
    applyPut σ k v k = .present (some v) := by
  unfold applyPut
  rw [hk]
  simp

theorem step_mono {required : Int} {σ : StoreState} {k k2 : String} {c : Int}
    (h : σ k2 = .present (some c)) :
    ∃ c2, (processKeyState required σ k).1 k2 = .present (some c2) ∧ c ≤ c2 := by
  by_cases hkk : k2 = k
  · subst hkk
    rw [processKeyState_present h]
    by_cases hlt : c < required
    · rw [if_pos hlt]
      exact ⟨required, applyPut_self_present h, le_of_lt hlt⟩
    · rw [if_neg hlt]
      exact ⟨c, h, le_refl c⟩
  · rcases processKeyState_cases required σ k with hs | hs <;> rw [hs]
    · exact ⟨c, (applyPut_other hkk).trans h, le_refl c⟩
    · exact ⟨c, h, le_refl c⟩

theorem runPass_mono {required : Int} {keys : List String} : ∀ {σ : StoreState}
    {k : String} {c : Int}, σ k = .present (some c) →
    ∃ c2, (runPass required σ keys).1 k = .present (some c2) ∧ c ≤ c2 := by
  induction keys with
  | nil => intro σ k c h; exact ⟨c, h, le_refl c⟩
  | cons a as ih =>
    intro σ k c h
    obtain ⟨c1, h1, hc1⟩ := @step_mono required σ a k c h
    obtain ⟨c2, h2, hc2⟩ := ih h1
    rw [runPass_cons]
    exact ⟨c2, h2, le_trans hc1 hc2⟩

theorem runPass_requests_all {required : Int} {p : PutRequest → Bool}
    (hp : ∀ k, p (updateRetentionRequest k required) = true) :
    ∀ (keys : List String) (σ : StoreState), ((runPass required σ keys).2.all p) = true := by
  intro keys
  induction keys with
  | nil => intro σ; rfl
  | cons a as ih =>
    intro σ
    rw [runPass_cons, List.all_append]
    rcases processKeyState_cases required σ a with hs | hs <;>
      rw [hs] <;> simp [hp, ih]

/-- C2: the pass never shortens a protection window: every issued update
requests exactly the target timestamp; an object whose current expiry is
at or after the target triggers no call and no state change; any call
issued while an expiry is present requests at least that expiry; and
after a full pass every previously present expiry is still present and at
least as large. -/
theorem runPass_never_shortens (required : Int) (keys : List String) (σ : StoreState) :
    ((runPass required σ keys).2.all fun r => decide (r.retainUntilDate = required)) = true
    ∧ (∀ k c, σ k = .present (some c) → required ≤ c →
        processKeyState required σ k = (σ, []))
    ∧ (∀ k c, σ k = .present (some c) →
        ∀ r ∈ (processKeyState required σ k).2, c ≤ r.retainUntilDate)
    ∧ (∀ k c, σ k = .present (some c) →
        ∃ c2, (runPass required σ keys).1 k = .present (some c2) ∧ c ≤ c2) := by
  refine ⟨runPass_requests_all (fun k => by simp [updateRetentionRequest]) keys σ,
    fun k c hk hge => processKeyState_noop hk hge, fun k c hk r hr => ?_,
    fun k c hk => runPass_mono hk⟩
  rw [processKeyState_present hk] at hr
  by_cases hlt : c < required
  · rw [if_pos hlt] at hr
    rw [List.mem_singleton] at hr
    subst hr
    exact le_of_lt hlt
  · rw [if_neg hlt] at hr
    cases hr

/-- Witness for C2 at a concrete state: an object present with expiry 5
under target 10 gets exactly one request at the target, never below 5, and
a state at or above 5 afterwards; an object already at 20 triggers no
call. -/
theorem runPass_never_shortens_witness :
    (∀ r ∈ (processKeyState 10 (fun _ => ObjState.present (some 5)) "c1/h1/data/f.db").2,
      (5 : Int) ≤ r.retainUntilDate)
    ∧ (∃ c2, (runPass 10 (fun _ => ObjState.present (some 5)) ["c1/h1/data/f.db"]).1
        "c1/h1/data/f.db" = .present (some c2) ∧ (5 : Int) ≤ c2)
    ∧ processKeyState 10 (fun _ => ObjState.present (some 20)) "c1/h1/data/f.db"
        = ((fun _ => ObjState.present (some 20)), []) :=
  ⟨(runPass_never_shortens 10 ["c1/h1/data/f.db"] _).2.2.1 "c1/h1/data/f.db" 5 rfl,
   (runPass_never_shortens 10 ["c1/h1/data/f.db"] _).2.2.2 "c1/h1/data/f.db" 5 rfl,
   (runPass_never_shortens 10 ["c1/h1/data/f.db"] _).2.1 "c1/h1/data/f.db" 20 rfl (by omega)⟩

/-- C10: every update request any pass ever issues — for every store
state, target and key sequence — carries the fixed `GOVERNANCE` object
lock mode, and the request constructor itself fixes the mode. -/
theorem runPass_requests_governance (required : Int) (keys : List String) (σ : StoreState) :
    ((runPass required σ keys).2.all
      fun r => decide (r.mode = ObjectLockRetentionMode.governance)) = true
    ∧ ∀ key v, (updateRetentionRequest key v).mode = ObjectLockRetentionMode.governance :=
  ⟨runPass_requests_all (fun k => by simp [updateRetentionRequest]) keys σ,
   fun _ _ => rfl⟩

theorem step_not_missing {required : Int} {σ : StoreState} {k k2 : String}
    (h : σ k2 ≠ .missing) :
    (processKeyState required σ k).1 k2 ≠ .missing := by
  rcases processKeyState_cases required σ k with hs | hs <;> rw [hs]
  · show applyPut σ k required k2 ≠ ObjState.missing
    by_cases hkk : k2 = k
    · rw [hkk]
      rw [hkk] at h
      cases hk : σ k with
      | missing => exact absurd hk h
      | present r => rw [applyPut_self_present hk]; simp
    · rw [applyPut_other hkk]; exact h
  · exact h

theorem step_retained_self {required : Int} {σ : StoreState} {k : String}
    (h : σ k ≠ .missing) :
    Retained required (processKeyState required σ k).1 k := by
  cases hk : σ k with
  | missing => exact absurd hk h
  | present r =>
    cases r with
    | none =>
      have hq : queryRetention σ k = .success none := by rw [queryRetention, hk]
      unfold processKeyState
      rw [hq]
      exact ⟨required, applyPut_self_present hk, le_refl required⟩
    | some c =>
      rw [processKeyState_present hk]
      by_cases hlt : c < required
      · rw [if_pos hlt]
        exact ⟨required, applyPut_self_present hk, le_refl required⟩
      · rw [if_neg hlt]
        exact ⟨c, hk, by omega⟩

theorem step_retained_preserved {required : Int} {σ : StoreState} {k k2 : String}
    (h : Retained required σ k2) :
    Retained required (processKeyState required σ k).1 k2 := by
  obtain ⟨c, hc, hge⟩ := h
  obtain ⟨c2, h2, hcc⟩ := @step_mono required σ k k2 c hc
  exact ⟨c2, h2, le_trans hge hcc⟩

theorem runPass_retained_preserved {required : Int} {keys : List String} :
    ∀ {σ : StoreState} {k : String}, Retained required σ k →
    Retained required (runPass required σ keys).1 k := by
  induction keys with
  | nil => intro σ k h; exact h
  | cons a as ih =>
    intro σ k h
    rw [runPass_cons]
    exact ih (step_retained_preserved h)

theorem runPass_retained_of_mem {required : Int} {keys : List String} :
    ∀ {σ : StoreState}, (∀ k ∈ keys, σ k ≠ .missing) →
    ∀ k ∈ keys, Retained required (runPass required σ keys).1 k := by
  induction keys with
  | nil => intro σ _ k hk; cases hk
  | cons a as ih =>
    intro σ h k hk
    rw [runPass_cons]
    rcases List.mem_cons.mp hk with rfl | hk2
    · exact runPass_retained_preserved (step_retained_self (h k (List.mem_cons_self _ _)))
    · exact ih (fun k2 hk2 => step_not_missing (h k2 (List.mem_cons_of_mem _ hk2))) k hk2

theorem runPass_noop_of_retained {required : Int} {keys : List String} {σ : StoreState}
    (h : ∀ k ∈ keys, Retained required σ k) :
    runPass required σ keys = (σ, []) := by
  induction keys with
  | nil => rfl
  | cons a as ih =>
    obtain ⟨c, hc, hge⟩ := h a (List.mem_cons_self _ _)
    have ha : processKeyState required σ a = (σ, []) := processKeyState_noop hc hge
    rw [runPass_cons, ha, ih (fun k hk => h k (List.mem_cons_of_mem _ hk))]
    rfl

/-- C9 (amended): when every referenced object exists in the store, the
second of two successive passes with the same target is a no-op — it
issues zero update requests and leaves the state unchanged —, because
after the first pass every referenced object satisfies the policy. -/
theorem runPass_idempotent (required : Int) (keys : List String) (σ : StoreState)
    (h : ∀ k ∈ keys, σ k ≠ .missing) :
    runPass required (runPass required σ keys).1 keys
      = ((runPass required σ keys).1, []) :=
  runPass_noop_of_retained (runPass_retained_of_mem h)

/-- Witness for C9 (amended) at a concrete state: one present object with
no expiry yet; the second pass issues nothing. -/
theorem runPass_idempotent_witness :
    runPass 10 (runPass 10 (fun _ => ObjState.present none) ["c1/h1/data/f1.db"]).1
        ["c1/h1/data/f1.db"]
      = ((runPass 10 (fun _ => ObjState.present none) ["c1/h1/data/f1.db"]).1, []) :=
  runPass_idempotent 10 ["c1/h1/data/f1.db"] (fun _ => ObjState.present none)
    (fun _ _ h => ObjState.noConfusion h)

/-- C9 counterexample: with a store state in which the referenced object
does not exist, the retention query fails with `NoSuchKey`, the code
treats that as "needs update" and issues the call, the put fails on the
missing object, and the second pass issues the same call again — one
update call on the second pass, not zero. -/
theorem runPass_second_pass_issues_call :
    (runPass 10 (runPass 10 (fun _ => ObjState.missing) ["c1/h1/data/ks/t/f1.db"]).1
        ["c1/h1/data/ks/t/f1.db"]).2.length = 1 := rfl

/-- C8: error containment in the driver. The run fails exactly when
discovery fails (so no partial manifest set is processed); when discovery
succeeds the run processes every discovered manifest and concatenates their
events; and each manifest independently yields either a single local error
event (download/decode or path extraction) or exactly one outcome event per
referenced object, so no failure aborts sibling processing. -/
theorem driver_error_containment (st : Store) (dryRun : Bool) (required : Int) :
    (∀ e, runReconciliation st dryRun required = .error e
      ↔ findManifests st.pages = .error e)
    ∧ (∀ ms, findManifests st.pages = .ok ms →
        runReconciliation st dryRun required
          = .ok (ms.flatMap (processManifestKey st dryRun required)))
    ∧ (∀ mk,
        (∃ e, downloadManifest st mk = .error e
          ∧ processManifestKey st dryRun required mk = [.manifestError mk e])
        ∨ (∃ mf e2, downloadManifest st mk = .ok mf
          ∧ extractHostnamePath mk = .error e2
          ∧ processManifestKey st dryRun required mk = [.pathError mk])
        ∨ (∃ mf hp, downloadManifest st mk = .ok mf
          ∧ extractHostnamePath mk = .ok hp
          ∧ processManifestKey st dryRun required mk
              = mf.objects.map
                  (fun o => processObjectKey st dryRun required (resolveObjectKey hp o.path))
          ∧ (processManifestKey st dryRun required mk).length = mf.objects.length)) := by
  refine ⟨?_, ?_, ?_⟩
  · intro e
    unfold runReconciliation
    cases h : findManifests st.pages <;> simp [h, Except.map]
  · intro ms h
    unfold runReconciliation
    rw [h]
    rfl
  · intro mk
    cases hd : downloadManifest st mk with
    | error e =>
      exact Or.inl ⟨e, rfl, by unfold processManifestKey; rw [hd]⟩
    | ok mf =>
      cases hh : extractHostnamePath mk with
      | error e2 =>
        exact Or.inr (Or.inl ⟨mf, e2, rfl, rfl, by unfold processManifestKey; rw [hd, hh]⟩)
      | ok hp =>
        refine Or.inr (Or.inr ⟨mf, hp, rfl, rfl, ?_, ?_⟩)
        · unfold processManifestKey
          rw [hd, hh]
        · unfold processManifestKey
          rw [hd, hh]
          simp

/-- Witness for C8 at `sampleStore`: discovery finds two manifests; the
first fails to download and yields one error event, the second yields one
event per object — one successful update and one skipped query error. -/
theorem driver_error_containment_witness :
    runReconciliation sampleStore false 10 =
      .ok [Event.manifestError "c1/h1/b1/meta/manifest.json" "failed to get object: boom",
           Event.updated "c1/h2/data/t/f1.db",
           Event.objectError "c1/h2/data/t/f2.db" "AccessDenied"] := by
  have h := (driver_error_containment sampleStore false 10).2.1
    ["c1/h1/b1/meta/manifest.json", "c1/h2/b1/meta/manifest.json"] rfl
  exact h.trans (by rfl)

end Theorems

end Medusa
